import Mathlib

/-!
Verification development for the asynchronous pipeline scheduler in
`haystack_experimental/core/pipeline/async_pipeline.py`.

The scheduler's own control flow (`AsyncPipeline.run`, `AsyncPipeline._run_subgraph`,
`AsyncPipeline._run_component`, `run_async_pipeline`) is embedded directly from the
source.  Helper routines imported from `haystack.core.pipeline.base`
(`_component_has_enough_inputs_to_run`, `_is_stuck_in_a_loop`, `_distribute_output`,
`_find_next_runnable_component`, `_find_next_runnable_lazy_variadic_or_default_component`,
`_add_missing_input_defaults`, `_find_components_that_will_receive_no_input`) are not part
of this repository's sources; they are treated as opaque oracles (fields of `Oracles`),
and the queue helpers with documented set semantics are modelled from the spec.
Python dictionaries are modelled as association lists with unique keys.
-/

/-- Opaque socket payload.  Variadic sockets hold `vseq` sequences; the scheduler treats
sequence elements opaquely (it only ever constructs the empty sequence, when resetting a
consumed variadic socket), so elements are modelled by opaque tags. -/
inductive Value where
  | vnat (n : Nat)
  | vstr (s : String)
  | vseq (l : List String)
deriving DecidableEq, Repr

/-- One component's pending inputs: `socket-name → value` (a Python dict). -/
abbrev SockMap := List (String × Value)

/-- The input store: `component-name → {socket-name → value}` (`components_inputs`). -/
abbrev InputStore := List (String × SockMap)

/-- One item of the yielded stream: a `{component-name → output-map}` dictionary. -/
abbrev Yield := List (String × SockMap)

/-- Dictionary update: overwrite the entry for `k` in place, or append a new one,
matching Python `d[k] = v` (insertion position of an existing key is kept). -/
def setA {α : Type} (m : List (String × α)) (k : String) (v : α) : List (String × α) :=
  match m with
  | [] => [(k, v)]
  | (k', v') :: rest => if k' = k then (k, v) :: rest else (k', v') :: setA rest k v

/-- An input socket as described by `instance.__haystack_input__._sockets_dict[name]`:
its name, the names of the upstream components feeding it (`senders`), and whether it
is variadic. -/
structure Socket where
  name : String
  senders : List String
  is_variadic : Bool
deriving DecidableEq, Repr

/-- Result of invoking a component: either a socket-name-keyed mapping or a value that
is not a `Mapping` (the contract violation checked at lines 133-137). -/
inductive CompResult where
  | mapping (m : SockMap)
  | notMapping
deriving Repr

/-- A component instance as the scheduler sees it: the external `_is_lazy_variadic`
classification, its declared input sockets, its output sockets with their receiver
component names (`__haystack_output__._sockets_dict[s].receivers`), and its run
behaviour (`run` / `run_async`). -/
structure Comp where
  is_lazy_variadic : Bool
  input_sockets : List Socket
  output_sockets : List (String × List String)
  runFn : SockMap → CompResult

/-- The pipeline graph nodes: `self.graph.nodes[name]["instance"]`. -/
abbrev Graph := List (String × Comp)

/-- Lazy-variadic test of a queued name (`_is_lazy_variadic(comp)` for the instance
stored in the graph; queue entries always come from the graph). -/
def lazyOf (G : Graph) (n : String) : Bool :=
  match List.lookup n G with
  | some c => c.is_lazy_variadic
  | none => false

/-- Senders of a declared socket, from `__haystack_input__._sockets_dict[socket_name].senders`.
Socket names are unique in the sockets dict; an undeclared name (impossible after input
validation) yields `[]`. -/
def sendersOf (comp : Comp) (sname : String) : List String :=
  match comp.input_sockets.find? (fun s => s.name == sname) with
  | some s => s.senders
  | none => []

/-- Whether a declared socket is variadic (`socket.is_variadic`). -/
def isVariadicSocket (comp : Comp) (sname : String) : Bool :=
  match comp.input_sockets.find? (fun s => s.name == sname) with
  | some s => s.is_variadic
  | none => false

/-- Embeds lines 126-131 of `_run_component`: every consumed entry whose declared socket
is variadic is reset in place to an empty sequence.  Socket names are unique in the
sockets dict, so the in-place loop is a per-entry update. -/
def resetVariadics (comp : Comp) (m : SockMap) : SockMap :=
  m.map (fun p => if isVariadicSocket comp p.1 then (p.1, Value.vseq []) else p)

/-- Embeds lines 482-489 of `run`: after a successful run every consumed entry whose
socket has senders is deleted; entries whose socket has no senders (user input) are
kept. -/
def deleteConsumedInputs (comp : Comp) (m : SockMap) : SockMap :=
  m.filter (fun p => (sendersOf comp p.1).isEmpty)

/-- Embeds lines 207-219 of `_run_subgraph`: a consumed entry is deleted only when its
socket has senders and every sender is inside the cycle; user inputs (no senders) and
entries with any external sender are kept. -/
def deleteConsumedInCycle (cycle : List String) (comp : Comp) (m : SockMap) : SockMap :=
  m.filter (fun p =>
    (sendersOf comp p.1).isEmpty || !((sendersOf comp p.1).all (fun x => cycle.contains x)))

/-- Receivers of one output socket (`__haystack_output__._sockets_dict[s].receivers`). -/
def receiversOf (comp : Comp) (sname : String) : List String :=
  match List.lookup sname comp.output_sockets with
  | some rs => rs
  | none => []

/-- Embeds lines 226-233 of `_run_subgraph`: does any output socket present in `res`
have a receiver inside `cycle`?  (`final_output_reached`). -/
def outputReachesCycle (cycle : List String) (comp : Comp) (res : SockMap) : Bool :=
  res.any (fun p => (receiversOf comp p.1).any (fun r => cycle.contains r))

/-- State mutated by `_run_component` (lines 114-141): the component's visit counter,
its consumed-inputs dict, and the returned output (`none` when the component did not
return a `Mapping` and `PipelineRuntimeError` is raised). -/
structure RunCompOut where
  visits : Nat
  inputs : SockMap
  result : Option SockMap
deriving DecidableEq, Repr

/-- Embeds `AsyncPipeline._run_component` (lines 114-141): invoke the component,
increment `visits`, reset the consumed variadic sockets, then check that the result is
a `Mapping`.  The counter increment and the variadic reset happen before the check, so
they survive a `PipelineRuntimeError`. -/
def runComponent (comp : Comp) (inputs : SockMap) (visits : Nat) : RunCompOut :=
  let res := comp.runFn inputs
  let visits' := visits + 1
  let inputs' := resetVariadics comp inputs
  match res with
  | CompResult.notMapping => { visits := visits', inputs := inputs', result := none }
  | CompResult.mapping m => { visits := visits', inputs := inputs', result := some m }

/-- Modelled from the spec: `_enqueue_waiting_component` from `haystack.core.pipeline.base`
(not in this repository's sources) — "Membership is a set; insertion order is preserved":
append the name unless it is already waiting. -/
def enqueueWaiting (name : String) (q : List String) : List String :=
  if name ∈ q then q else q ++ [name]

/-- Modelled from the spec: `_dequeue_waiting_component` (base helper, not in src) —
remove the component from the waiting queue; a no-op when absent. -/
def dequeueWaiting (name : String) (q : List String) : List String :=
  q.erase name

/-- Modelled from the spec: `_enqueue_component` (base helper, not in src) — move the
component from the waiting queue to the run queue, keeping run-queue membership a set. -/
def enqueueComponent (name : String) (rq wq : List String) : List String × List String :=
  (if name ∈ rq then rq else rq ++ [name], wq.erase name)

/-- Modelled from the spec: `_dequeue_component` (base helper, not in src) — remove the
component from both queues. -/
def dequeueBoth (name : String) (rq wq : List String) : List String × List String :=
  (rq.erase name, wq.erase name)

/-- Dequeue every component of `names` from both queues (lines 243-244 and 499-500). -/
def dequeueMany (names : List String) (rq wq : List String) : List String × List String :=
  names.foldl (fun p n => dequeueBoth n p.1 p.2) (rq, wq)

/-- Python set equality of the waiting-queue snapshots
(`before_last_waiting_queue == last_waiting_queue`, both are `set[str]`). -/
def setEq (a b : List String) : Bool :=
  a.all (fun x => b.contains x) && b.all (fun x => a.contains x)

/-- Errors the scheduler can raise: `PipelineMaxComponentRuns`, `PipelineRuntimeError`,
and the Python exceptions that an inconsistent state would trigger (`pop` from an empty
list, missing graph key). -/
inductive PErr where
  | maxRunsExceeded (name : String)
  | runtimeError (name : String)
  | indexError
  | keyError
deriving DecidableEq, Repr

/-- Visit counters, `self.graph.nodes[name]["visits"]` (reset to 0 by `_init_graph`). -/
def visitsOf (vs : List (String × Nat)) (n : String) : Nat :=
  (List.lookup n vs).getD 0

/-- The pending inputs of one component, `components_inputs[name]` (every component name
is present after the defaults initialisation at lines 407-417). -/
def inputsOf (store : InputStore) (n : String) : SockMap :=
  (List.lookup n store).getD []

/-- External helpers imported from `haystack.core.pipeline.base`, which is not part of
this repository's sources; the scheduler calls them as black boxes.
`distribute` returns the residual (receiver-less) outputs together with the updated
input store and queues, mirroring `_distribute_output`'s in-place mutation;
`distributeCycle` is `_distribute_output` applied to receivers filtered to the cycle
(line 246). -/
structure Oracles where
  hasEnough : String → InputStore → Bool
  isStuck : List String → Bool
  nextRunnableLazyOrDefault : List String → String
  nextRunnable : InputStore → List String → String
  addDefaults : String → InputStore → InputStore
  distribute : String → SockMap → InputStore → List String → List String →
    SockMap × InputStore × List String × List String
  distributeCycle : List String → String → SockMap → InputStore → List String → List String →
    SockMap × InputStore × List String × List String
  noInputComps : String → SockMap → InputStore → List String

/-- The queue-and-witness state shared verbatim between the main loop and the cycle
sub-scheduler: run queue, waiting queue, input store, visit counters, and the two
stuck-detection snapshots. -/
structure SchedCore where
  runQueue : List String
  waiting : List String
  store : InputStore
  visits : List (String × Nat)
  beforeLast : Option (List String)
  lastWaiting : Option (List String)
deriving DecidableEq, Repr

/-- Embeds the advancing arm of the drain check (lines 533-538 and 284-289): record the
two snapshots, pick the next runnable waiting component, fill its defaults, and move it
to the run queue. -/
def drainAdvance (O : Oracles) (core : SchedCore) : SchedCore :=
  let name := O.nextRunnable core.store core.waiting
  let store' := O.addDefaults name core.store
  let q := enqueueComponent name core.runQueue core.waiting
  { core with
    runQueue := q.1, waiting := q.2, store := store',
    beforeLast := core.lastWaiting, lastWaiting := some core.waiting }

/-- Embeds the shared stuck-detection block (`run` lines 510-538, `_run_subgraph` lines
261-289).  Returns `none` exactly when the `StuckInLoop` runtime warning fires and the
loop breaks. -/
def drainCheck (O : Oracles) (core : SchedCore) : Option SchedCore :=
  if core.runQueue.isEmpty && !core.waiting.isEmpty then
    match core.beforeLast, core.lastWaiting with
    | some a, some b =>
      if setEq a b then
        if O.isStuck core.waiting then none
        else
          let name := O.nextRunnableLazyOrDefault core.waiting
          let store' := O.addDefaults name core.store
          let q := enqueueComponent name core.runQueue core.waiting
          some { core with runQueue := q.1, waiting := q.2, store := store' }
      else some (drainAdvance O core)
    | _, _ => some (drainAdvance O core)
  else some core

/-- State of one `_run_subgraph` invocation (lines 171-291): the shared core plus the
cycle's accumulated `subgraph_outputs` and the `cycle_received_inputs` flag. -/
structure SubState where
  core : SchedCore
  subgraphOutputs : List (String × SockMap)
  cycleReceivedInputs : Bool
deriving DecidableEq, Repr

/-- Outcome of one iteration body of `_run_subgraph`'s while loop, before the shared
drain check: an exception, a `continue` that skips the drain check (lazy-variadic
deferral), or fall-through to the drain check with the intermediate yields produced. -/
inductive SubBranchOut where
  | serr (ys : List Yield) (e : PErr)
  | sskip (st : SubState)
  | sdrain (ys : List Yield) (st : SubState)
deriving DecidableEq, Repr

/-- The state after a successful component run inside `_run_subgraph` (lines 204-256):
visit counter bumped, consumed inputs deleted under the in-cycle rule, the component
dequeued from the waiting queue, dead receivers dequeued, the output distributed to
in-cycle receivers, residual output recorded in `subgraph_outputs`, the stuck witnesses
reset, and `cycle_received_inputs` set when no output socket in `res` reaches the
cycle. -/
def subRunPost (O : Oracles) (cycle : List String) (name : String) (rest : List String)
    (st : SubState) (comp : Comp) (res : SockMap) : SubState :=
  let rc := runComponent comp (inputsOf st.core.store name) (visitsOf st.core.visits name)
  let store2 := setA st.core.store name (deleteConsumedInCycle cycle comp rc.inputs)
  let q2 := dequeueMany (O.noInputComps name res store2) rest (dequeueWaiting name st.core.waiting)
  let d := O.distributeCycle cycle name res store2 q2.1 q2.2
  { core :=
      { runQueue := d.2.2.1, waiting := d.2.2.2, store := d.2.1,
        visits := setA st.core.visits name rc.visits,
        beforeLast := none, lastWaiting := none },
    subgraphOutputs := if d.1.isEmpty then st.subgraphOutputs else setA st.subgraphOutputs name d.1,
    cycleReceivedInputs := st.cycleReceivedInputs || !(outputReachesCycle cycle comp res) }

/-- Embeds one iteration body of `_run_subgraph`'s while loop (lines 191-259), with the
head `name` already popped and `rest` the remaining run queue: lazy-variadic deferral,
the `PipelineMaxComponentRuns` guard, the component invocation, and the post-run state
of `subRunPost`. -/
def subBranch (O : Oracles) (G : Graph) (maxRuns : Nat) (cycle : List String)
    (name : String) (rest : List String) (st : SubState) : SubBranchOut :=
  match List.lookup name G with
  | none => SubBranchOut.serr [] PErr.keyError
  | some comp =>
    if comp.is_lazy_variadic && !(rest.all (fun n => lazyOf G n)) then
      SubBranchOut.sskip
        { st with
          core := { st.core with runQueue := rest, waiting := enqueueWaiting name st.core.waiting } }
    else if O.hasEnough name st.core.store then
      if visitsOf st.core.visits name > maxRuns then
        SubBranchOut.serr [] (PErr.maxRunsExceeded name)
      else
        match (runComponent comp (inputsOf st.core.store name) (visitsOf st.core.visits name)).result with
        | none => SubBranchOut.serr [] (PErr.runtimeError name)
        | some res =>
          SubBranchOut.sdrain [[(name, res)]] (subRunPost O cycle name rest st comp res)
    else
      SubBranchOut.sdrain []
        { st with
          core := { st.core with runQueue := rest, waiting := enqueueWaiting name st.core.waiting } }

/-- Result of driving `_run_subgraph`: the intermediate yields together with the final
state whose `subgraphOutputs` is yielded as the terminal `(subgraph_outputs, True)`
item, via a normal exit (`done`, the while condition became false) or a `StuckInLoop`
break (`stuck`); or an exception with the yields produced before it. -/
inductive SubResult where
  | done (ys : List Yield) (st : SubState)
  | stuck (ys : List Yield) (st : SubState)
  | failed (ys : List Yield) (e : PErr)
  | outOfFuel
deriving DecidableEq, Repr

/-- Prepend earlier yields to a sub-scheduler result. -/
def subPrepend (ys : List Yield) : SubResult → SubResult
  | SubResult.done ys' st => SubResult.done (ys ++ ys') st
  | SubResult.stuck ys' st => SubResult.stuck (ys ++ ys') st
  | SubResult.failed ys' e => SubResult.failed (ys ++ ys') e
  | SubResult.outOfFuel => SubResult.outOfFuel


/-- Final state carried by a finished sub-scheduler result (`done` or `stuck`). -/
def SubResult.finalState : SubResult → Option SubState
  | SubResult.done _ st => some st
  | SubResult.stuck _ st => some st
  | SubResult.failed _ _ => none
  | SubResult.outOfFuel => none

/-- Embeds `_run_subgraph`'s while loop (lines 189-291): while `cycle_received_inputs`
is false, pop the run-queue head (popping an empty queue is Python's `IndexError`), run
the iteration body, then the shared drain check; `fuel` bounds the number of
iterations. -/
def subLoop (O : Oracles) (G : Graph) (maxRuns : Nat) (cycle : List String) :
    Nat → SubState → SubResult
  | 0, _ => SubResult.outOfFuel
  | fuel+1, st =>
    if st.cycleReceivedInputs then SubResult.done [] st
    else
      match st.core.runQueue with
      | [] => SubResult.failed [] PErr.indexError
      | name :: rest =>
        match subBranch O G maxRuns cycle name rest st with
        | SubBranchOut.serr ys e => SubResult.failed ys e
        | SubBranchOut.sskip st' => subLoop O G maxRuns cycle fuel st'
        | SubBranchOut.sdrain ys st' =>
          match drainCheck O st'.core with
          | none => SubResult.stuck ys st'
          | some core2 => subPrepend ys (subLoop O G maxRuns cycle fuel { st' with core := core2 })

/-- Embeds lines 174-177: the cycle sub-scheduler's initial run queue is the suffix
`cycle[start_index:]` of the cycle list, where `start_index = cycle.index(component_name)`. -/
def seedRunQueue (cycle : List String) (componentName : String) : List String :=
  cycle.drop (cycle.indexOf componentName)

/-- Modelled from the spec: "Its run queue is seeded with `C` rotated so `component_name`
is the head" — the rotation of the cycle list at `component_name`, for comparison with
`seedRunQueue`. -/
def rotateAt (cycle : List String) (componentName : String) : List String :=
  cycle.drop (cycle.indexOf componentName) ++ cycle.take (cycle.indexOf componentName)

/-- Initial `_run_subgraph` state (lines 171-187): seeded run queue, empty waiting
queue, undefined witnesses, empty `subgraph_outputs`, `cycle_received_inputs = False`.
The input store and visit counters are shared with the caller. -/
def subInit (cycle : List String) (componentName : String) (store : InputStore)
    (visits : List (String × Nat)) : SubState :=
  { core :=
      { runQueue := seedRunQueue cycle componentName, waiting := [], store := store,
        visits := visits, beforeLast := none, lastWaiting := none },
    subgraphOutputs := [], cycleReceivedInputs := false }

/-- State of the main loop of `run` (lines 428-540): the shared core plus the
accumulated `final_outputs`. -/
structure MainState where
  core : SchedCore
  finalOutputs : List (String × SockMap)
deriving DecidableEq, Repr

/-- Outcome of one iteration body of `run`'s while loop, before the shared drain
check. -/
inductive MainBranchOut where
  | berr (ys : List Yield) (e : PErr)
  | bskip (st : MainState)
  | bdrain (ys : List Yield) (st : MainState)
  | bfuel
deriving DecidableEq, Repr

/-- Embeds lines 461-472 of `run`: distribute each entry of the finished cycle's
`subgraph_outputs` through the full-graph `_distribute_output` and record non-empty
residuals in `final_outputs`. -/
def distributeSubOutputs (O : Oracles) (items : List (String × SockMap)) (core : SchedCore)
    (fo : List (String × SockMap)) : SchedCore × List (String × SockMap) :=
  match items with
  | [] => (core, fo)
  | (cname, cout) :: restI =>
    let d := O.distribute cname cout core.store core.runQueue core.waiting
    let core' := { core with store := d.2.1, runQueue := d.2.2.1, waiting := d.2.2.2 }
    let fo' := if d.1.isEmpty then fo else setA fo cname d.1
    distributeSubOutputs O restI core' fo'

/-- The state after a finished cycle dispatch in `run` (lines 450-472): the run queue
is reset to empty, the stuck witnesses are reset, the store and visit counters are the
sub-scheduler's final ones, and the cycle's `subgraph_outputs` are distributed through
the full-graph distributor, recording non-empty residuals in `final_outputs`. -/
def mainCyclePost (O : Oracles) (st : MainState) (sst : SubState) : MainState :=
  let core0 : SchedCore :=
    { runQueue := [], waiting := st.core.waiting, store := sst.core.store,
      visits := sst.core.visits, beforeLast := none, lastWaiting := none }
  let r := distributeSubOutputs O sst.subgraphOutputs core0 st.finalOutputs
  { core := r.1, finalOutputs := r.2 }

/-- The state after a successful plain (non-cycle) component run in `run` (lines
479-505): visit counter bumped, consumed sender-fed inputs deleted, the component
dequeued from the waiting queue, dead receivers dequeued, the output distributed, the
residual recorded in `final_outputs`, and the stuck witnesses reset. -/
def mainRunPost (O : Oracles) (name : String) (rest : List String) (st : MainState)
    (comp : Comp) (res : SockMap) : MainState :=
  let rc := runComponent comp (inputsOf st.core.store name) (visitsOf st.core.visits name)
  let store2 := setA st.core.store name (deleteConsumedInputs comp rc.inputs)
  let q2 := dequeueMany (O.noInputComps name res store2) rest (dequeueWaiting name st.core.waiting)
  let d := O.distribute name res store2 q2.1 q2.2
  { core :=
      { runQueue := d.2.2.1, waiting := d.2.2.2, store := d.2.1,
        visits := setA st.core.visits name rc.visits,
        beforeLast := none, lastWaiting := none },
    finalOutputs := if d.1.isEmpty then st.finalOutputs else setA st.finalOutputs name d.1 }

/-- Embeds one iteration body of `run`'s while loop (lines 429-508), with the head
`name` already popped and `rest` the remaining run queue: lazy-variadic deferral, cycle
dispatch through the sub-scheduler, the plain component run with the
`PipelineMaxComponentRuns` guard, or parking the component on the waiting queue. -/
def mainBranch (O : Oracles) (G : Graph) (cyclesOf : String → List (List String))
    (maxRuns : Nat) (fuel : Nat) (name : String) (rest : List String) (st : MainState) :
    MainBranchOut :=
  match List.lookup name G with
  | none => MainBranchOut.berr [] PErr.keyError
  | some comp =>
    if comp.is_lazy_variadic && !(rest.all (fun n => lazyOf G n)) then
      MainBranchOut.bskip
        { st with
          core := { st.core with runQueue := rest, waiting := enqueueWaiting name st.core.waiting } }
    else if O.hasEnough name st.core.store && !(cyclesOf name).isEmpty then
      match (cyclesOf name).head? with
      | none => MainBranchOut.berr [] PErr.keyError
      | some cyc =>
        match subLoop O G maxRuns cyc fuel (subInit cyc name st.core.store st.core.visits) with
        | SubResult.outOfFuel => MainBranchOut.bfuel
        | SubResult.failed ys e => MainBranchOut.berr ys e
        | SubResult.done ys sst | SubResult.stuck ys sst =>
          MainBranchOut.bdrain ys (mainCyclePost O st sst)
    else if O.hasEnough name st.core.store then
      if visitsOf st.core.visits name > maxRuns then
        MainBranchOut.berr [] (PErr.maxRunsExceeded name)
      else
        match (runComponent comp (inputsOf st.core.store name) (visitsOf st.core.visits name)).result with
        | none => MainBranchOut.berr [] (PErr.runtimeError name)
        | some res =>
          MainBranchOut.bdrain [[(name, res)]] (mainRunPost O name rest st comp res)
    else
      MainBranchOut.bdrain []
        { st with
          core := { st.core with runQueue := rest, waiting := enqueueWaiting name st.core.waiting } }

/-- Result of `run`'s scheduling loop: the complete stream of yields (`run` always
yields `final_outputs` as the very last item, after a natural exit or a `StuckInLoop`
break, line 540), or an exception with the yields produced before it. -/
inductive MainResult where
  | done (stuckBreak : Bool) (ys : List Yield) (st : MainState)
  | failed (ys : List Yield) (e : PErr)
  | outOfFuel
deriving DecidableEq, Repr

/-- Prepend earlier yields to a main-loop result. -/
def mainPrepend (ys : List Yield) : MainResult → MainResult
  | MainResult.done b ys' st => MainResult.done b (ys ++ ys') st
  | MainResult.failed ys' e => MainResult.failed (ys ++ ys') e
  | MainResult.outOfFuel => MainResult.outOfFuel


/-- Final state carried by a finished main-loop result. -/
def MainResult.finalState : MainResult → Option MainState
  | MainResult.done _ _ st => some st
  | MainResult.failed _ _ => none
  | MainResult.outOfFuel => none

/-- Embeds `run`'s while loop plus the terminal yield (lines 428-540): pop the head,
run the iteration body, then the shared drain check; when the run queue drains (or the
`StuckInLoop` warning breaks the loop), yield the accumulated `final_outputs` as the
last item. -/
def mainLoop (O : Oracles) (G : Graph) (cyclesOf : String → List (List String))
    (maxRuns : Nat) : Nat → MainState → MainResult
  | 0, _ => MainResult.outOfFuel
  | fuel+1, st =>
    match st.core.runQueue with
    | [] => MainResult.done false [st.finalOutputs] st
    | name :: rest =>
      match mainBranch O G cyclesOf maxRuns fuel name rest st with
      | MainBranchOut.bfuel => MainResult.outOfFuel
      | MainBranchOut.berr ys e => MainResult.failed ys e
      | MainBranchOut.bskip st' => mainLoop O G cyclesOf maxRuns fuel st'
      | MainBranchOut.bdrain ys st' =>
        match drainCheck O st'.core with
        | none => MainResult.done true (ys ++ [st'.finalOutputs]) st'
        | some core2 => mainPrepend ys (mainLoop O G cyclesOf maxRuns fuel { st' with core := core2 })

/-- Embeds the filter `include_outputs_from is None or k in include_outputs_from` at
line 572 of `run_async_pipeline`: with `none` every component name passes. -/
def incTest (inc : Option (List String)) (k : String) : Bool :=
  match inc with
  | none => true
  | some l => l.contains k

/-- Embeds lines 571-573 of `run_async_pipeline`: the dict comprehension over all
non-terminal stream items, keeping entries that pass `incTest`; a later occurrence of a
component name overwrites an earlier one, so the last intermediate output wins. -/
def intermediateOutputs (outs : List Yield) (inc : Option (List String)) :
    List (String × SockMap) :=
  outs.dropLast.foldl
    (fun acc d => d.foldl (fun acc2 p => if incTest inc p.1 then setA acc2 p.1 p.2 else acc2) acc)
    []

/-- Embeds lines 582-584 of `run_async_pipeline`: copy into `inner` the keys of
`output` that `inner` does not already have, never overwriting existing keys. -/
def mergeMissing (inner output : SockMap) : SockMap :=
  output.foldl (fun acc p => if (List.lookup p.1 acc).isSome then acc else acc ++ [p]) inner

/-- Embeds `run_async_pipeline` (lines 543-586) applied to an already-consumed stream
`outs` (the list produced by `pipeline.run(data)`, whose last item is the terminal
`final_outputs`): merge the selected intermediate outputs into the terminal item.  A
consumed stream is never empty, so `outputs[-1]` is total here. -/
def runAsyncPipelineResult (outs : List Yield) (inc : Option (List String)) : Yield :=
  let finalOutput := outs.getLast?.getD []
  (intermediateOutputs outs inc).foldl
    (fun fo p =>
      match List.lookup p.1 fo with
      | none => setA fo p.1 p.2
      | some inner => setA fo p.1 (mergeMissing inner p.2))
    finalOutput

/-! Concrete instances used by the scenario theorems below. -/

/-- A single self-looping component `a`: its one output socket feeds its own input
socket, making `["a"]` a breakable cycle. -/
def compA1 : Comp :=
  { is_lazy_variadic := false,
    input_sockets := [{ name := "in", senders := ["a"], is_variadic := false }],
    output_sockets := [("out", ["a"])],
    runFn := fun _ => CompResult.mapping [("out", Value.vnat 0)] }

/-- Graph holding only the self-looping `a`. -/
def G1 : Graph := [("a", compA1)]

/-- Oracles for the self-loop scenario: `a` is always ready, its output is distributed
back to itself (so the cycle keeps running), and the stuck predicate never fires. -/
def O1 : Oracles :=
  { hasEnough := fun _ _ => true,
    isStuck := fun _ => false,
    nextRunnableLazyOrDefault := fun _ => "a",
    nextRunnable := fun _ _ => "a",
    addDefaults := fun _ s => s,
    distribute := fun _ res store rq wq => (res, store, rq, wq),
    distributeCycle := fun _ _ _ store rq wq => ([], store, rq ++ ["a"], wq),
    noInputComps := fun _ _ _ => [] }

/-- The intermediate yield produced by each run of `a` in the self-loop scenario. -/
def yieldA1 : Yield := [("a", [("out", Value.vnat 0)])]

/-- A component that is never ready, for the stuck-cycle scenario. -/
def compA2 : Comp :=
  { is_lazy_variadic := false,
    input_sockets := [{ name := "in", senders := ["a"], is_variadic := false }],
    output_sockets := [],
    runFn := fun _ => CompResult.mapping [] }

/-- Graph holding only the never-ready `a`. -/
def G2 : Graph := [("a", compA2)]

/-- Oracles for the stuck-cycle scenario: `a` never has enough inputs and the external
stuck predicate confirms the deadlock. -/
def O2 : Oracles :=
  { hasEnough := fun _ _ => false,
    isStuck := fun _ => true,
    nextRunnableLazyOrDefault := fun _ => "a",
    nextRunnable := fun _ _ => "a",
    addDefaults := fun _ s => s,
    distribute := fun _ res store rq wq => (res, store, rq, wq),
    distributeCycle := fun _ _ res store rq wq => (res, store, rq, wq),
    noInputComps := fun _ _ _ => [] }

/-- The stream produced by the linear `hello → hello2` example of `run`'s docstring:
two intermediate items and the terminal `final_outputs`, in which only the leaf
`hello2` appears. -/
def helloStream : List Yield :=
  [[("hello", [("output", Value.vstr "Hello, world!")])],
   [("hello2", [("output", Value.vstr "Hello, Hello, world!")])],
   [("hello2", [("output", Value.vstr "Hello, Hello, world!")])]]


/-- Sub-scheduler state for the self-loop scenario in which `a` has already run three
times (`visits["a"] = 3 = max_runs_per_component`). -/
def c1State3 : SubState :=
  { core :=
      { runQueue := ["a"], waiting := [], store := [], visits := [("a", 3)],
        beforeLast := none, lastWaiting := none },
    subgraphOutputs := [], cycleReceivedInputs := false }

/-- The final sub-scheduler state of the stuck-cycle scenario: the loop has broken out
with the `StuckInLoop` warning while `cycle_received_inputs` is still false. -/
def c6State : SubState :=
  { core :=
      { runQueue := [], waiting := ["a"], store := [], visits := [],
        beforeLast := some ["a"], lastWaiting := some ["a"] },
    subgraphOutputs := [], cycleReceivedInputs := false }

/-- A trivial main-loop state with an empty run queue, used to exercise the terminal
yield. -/
def mainState0 : MainState :=
  { core :=
      { runQueue := [], waiting := [], store := [], visits := [],
        beforeLast := none, lastWaiting := none },
    finalOutputs := [] }

/-- A component whose run violates the output contract (does not return a `Mapping`),
with one user-fed variadic input socket. -/
def compBad : Comp :=
  { is_lazy_variadic := false,
    input_sockets := [{ name := "v", senders := [], is_variadic := true }],
    output_sockets := [],
    runFn := fun _ => CompResult.notMapping }


/-- The stuck-scenario state with `cycle_received_inputs` already true, used to witness
the immediate-exit behaviour of the sub-scheduler loop. -/
def c6StateDone : SubState :=
  { c6State with cycleReceivedInputs := true }

/-- A lazy-variadic component for the deferral scenario. -/
def compLazy : Comp :=
  { is_lazy_variadic := true,
    input_sockets := [{ name := "vin", senders := ["a"], is_variadic := true }],
    output_sockets := [],
    runFn := fun _ => CompResult.mapping [] }

/-- Graph with the lazy-variadic `l` and the non-lazy `a`, for the deferral scenario. -/
def G3 : Graph := [("l", compLazy), ("a", compA2)]

theorem lookup_nilA {α : Type} (k : String) : List.lookup k ([] : List (String × α)) = none := rfl

theorem lookup_consA {α : Type} (k a : String) (b : α) (rest : List (String × α)) :
    List.lookup k ((a, b) :: rest) = if k = a then some b else List.lookup k rest := by
  cases hb : k == a
  · have hne : k ≠ a := by simpa using hb
    simp only [List.lookup, hb, if_neg hne]
  · have he : k = a := by simpa using hb
    simp only [List.lookup, hb, if_pos he]

theorem lookup_setA {α : Type} (m : List (String × α)) (k : String) (v : α) (k' : String) :
    List.lookup k' (setA m k v) = if k' = k then some v else List.lookup k' m := by
  induction m with
  | nil =>
    by_cases h : k' = k <;> simp [setA, lookup_consA, lookup_nilA, h]
  | cons p rest ih =>
    obtain ⟨a, b⟩ := p
    by_cases hak : a = k
    · subst hak
      by_cases h : k' = a <;> simp [setA, lookup_consA, h]
    · by_cases h : k' = a
      · subst h
        simp [setA, lookup_consA, hak, Ne.symm hak]
      · simp [setA, lookup_consA, hak, h, ih]

theorem lookup_filter_key {α : Type} (m : List (String × α)) (p : String → Bool) (k : String) :
    List.lookup k (m.filter (fun q => p q.1)) = if p k then List.lookup k m else none := by
  induction m with
  | nil => by_cases h : p k <;> simp [lookup_nilA, h]
  | cons q rest ih =>
    obtain ⟨a, b⟩ := q
    by_cases hka : k = a
    · subst hka
      by_cases h : p k <;> simp [List.filter, lookup_consA, h, ih]
    · by_cases h : p a <;> by_cases h2 : p k <;>
        simp [List.filter, lookup_consA, h, h2, hka, ih]

theorem resetVariadics_nil (comp : Comp) : resetVariadics comp [] = [] := rfl

theorem resetVariadics_cons (comp : Comp) (a : String) (b : Value) (rest : SockMap) :
    resetVariadics comp ((a, b) :: rest) =
      (if isVariadicSocket comp a then (a, Value.vseq []) else (a, b)) :: resetVariadics comp rest := rfl

theorem lookup_resetVariadics (comp : Comp) (m : SockMap) (k : String) :
    List.lookup k (resetVariadics comp m) =
      if isVariadicSocket comp k then (List.lookup k m).map (fun _ => Value.vseq [])
      else List.lookup k m := by
  induction m with
  | nil => by_cases h : isVariadicSocket comp k <;> simp [resetVariadics_nil, lookup_nilA, h]
  | cons p rest ih =>
    obtain ⟨a, b⟩ := p
    rw [resetVariadics_cons]
    by_cases hka : k = a
    · subst hka
      by_cases h : isVariadicSocket comp k <;> simp [lookup_consA, h]
    · by_cases h : isVariadicSocket comp a <;> by_cases h2 : isVariadicSocket comp k <;>
        simp [lookup_consA, hka, h, h2, ih]

theorem find?_name_of_nodup (ss : List Socket) (s : Socket)
    (hnd : (ss.map Socket.name).Nodup) (hmem : s ∈ ss) :
    ss.find? (fun t => t.name == s.name) = some s := by
  induction ss with
  | nil => cases hmem
  | cons t ts ih =>
    have hnd0 : t.name ∉ ts.map Socket.name ∧ (ts.map Socket.name).Nodup := by
      rw [List.map_cons] at hnd
      exact List.nodup_cons.mp hnd
    rcases List.mem_cons.mp hmem with h | h
    · subst h; simp [List.find?]
    · have hne : t.name ≠ s.name := by
        intro he
        exact hnd0.1 (by rw [he]; exact List.mem_map_of_mem Socket.name h)
      have hb : (t.name == s.name) = false := by simpa using hne
      simp [List.find?, hb]
      exact ih hnd0.2 h

theorem sendersOf_eq (comp : Comp) (s : Socket)
    (hnd : (comp.input_sockets.map Socket.name).Nodup) (hmem : s ∈ comp.input_sockets) :
    sendersOf comp s.name = s.senders := by
  unfold sendersOf
  rw [find?_name_of_nodup comp.input_sockets s hnd hmem]

theorem isVariadicSocket_eq (comp : Comp) (s : Socket)
    (hnd : (comp.input_sockets.map Socket.name).Nodup) (hmem : s ∈ comp.input_sockets) :
    isVariadicSocket comp s.name = s.is_variadic := by
  unfold isVariadicSocket
  rw [find?_name_of_nodup comp.input_sockets s hnd hmem]

theorem seedRunQueue_head (cycle : List String) (name : String) (h : name ∈ cycle) :
    (seedRunQueue cycle name).head? = some name := by
  induction cycle with
  | nil => cases h
  | cons c cs ih =>
    by_cases hc : c = name
    · subst hc; simp [seedRunQueue, List.indexOf_cons_self]
    · have h' : name ∈ cs := by
        rcases List.mem_cons.mp h with h1 | h1
        · exact absurd h1.symm hc
        · exact h1
      have hidx : List.indexOf name (c :: cs) = (List.indexOf name cs) + 1 :=
        List.indexOf_cons_ne cs hc
      simpa [seedRunQueue, hidx] using ih h'

theorem visitsOf_setA (vs : List (String × Nat)) (n : String) (v : Nat) (m : String) :
    visitsOf (setA vs n v) m = if m = n then v else visitsOf vs m := by
  unfold visitsOf
  rw [lookup_setA]
  by_cases h : m = n <;> simp [h]

theorem subBranch_defer (O : Oracles) (G : Graph) (maxRuns : Nat) (cycle : List String)
    (name : String) (rest : List String) (st : SubState) (comp : Comp)
    (hg : List.lookup name G = some comp)
    (hlazy : comp.is_lazy_variadic = true)
    (hall : rest.all (fun n => lazyOf G n) = false) :
    subBranch O G maxRuns cycle name rest st =
      SubBranchOut.sskip
        { st with
          core := { st.core with runQueue := rest, waiting := enqueueWaiting name st.core.waiting } } := by
  unfold subBranch
  rw [hg]
  simp [hlazy, hall]

theorem subBranch_sdrain_cases (O : Oracles) (G : Graph) (maxRuns : Nat) (cycle : List String)
    (name : String) (rest : List String) (st : SubState) (ys : List Yield) (st' : SubState)
    (h : subBranch O G maxRuns cycle name rest st = SubBranchOut.sdrain ys st') :
    (ys = [] ∧
      st' = { st with
              core := { st.core with
                        runQueue := rest, waiting := enqueueWaiting name st.core.waiting } }) ∨
    (∃ comp res, List.lookup name G = some comp ∧
      (comp.is_lazy_variadic && !(rest.all (fun n => lazyOf G n))) = false ∧
      O.hasEnough name st.core.store = true ∧
      visitsOf st.core.visits name ≤ maxRuns ∧
      (runComponent comp (inputsOf st.core.store name) (visitsOf st.core.visits name)).result
        = some res ∧
      ys = [[(name, res)]] ∧ st' = subRunPost O cycle name rest st comp res) := by
  unfold subBranch at h
  cases hg : List.lookup name G with
  | none => rw [hg] at h; cases h
  | some comp =>
    rw [hg] at h
    by_cases h1 : (comp.is_lazy_variadic && !(rest.all (fun n => lazyOf G n))) = true
    · simp only [h1, if_true] at h
      cases h
    · have h1' : (comp.is_lazy_variadic && !(rest.all (fun n => lazyOf G n))) = false :=
        Bool.not_eq_true _ ▸ (by simpa using h1)
      simp only [h1', Bool.false_eq_true, if_false] at h
      by_cases h2 : O.hasEnough name st.core.store = true
      · simp only [h2, if_true] at h
        by_cases h3 : visitsOf st.core.visits name > maxRuns
        · simp only [if_pos h3] at h
          cases h
        · simp only [if_neg h3] at h
          cases hr : (runComponent comp (inputsOf st.core.store name)
              (visitsOf st.core.visits name)).result with
          | none => rw [hr] at h; cases h
          | some res =>
            rw [hr] at h
            obtain ⟨hys, hst⟩ := SubBranchOut.sdrain.inj h
            exact Or.inr ⟨comp, res, rfl, h1', h2, Nat.le_of_not_lt h3, hr, hys.symm, hst.symm⟩
      · have h2' : O.hasEnough name st.core.store = false := by simpa using h2
        simp only [h2', Bool.false_eq_true, if_false] at h
        obtain ⟨hys, hst⟩ := SubBranchOut.sdrain.inj h
        exact Or.inl ⟨hys.symm, hst.symm⟩

theorem subBranch_sskip_cases (O : Oracles) (G : Graph) (maxRuns : Nat) (cycle : List String)
    (name : String) (rest : List String) (st : SubState) (st' : SubState)
    (h : subBranch O G maxRuns cycle name rest st = SubBranchOut.sskip st') :
    ∃ comp, List.lookup name G = some comp ∧
      (comp.is_lazy_variadic && !(rest.all (fun n => lazyOf G n))) = true ∧
      st' = { st with
              core := { st.core with
                        runQueue := rest, waiting := enqueueWaiting name st.core.waiting } } := by
  unfold subBranch at h
  cases hg : List.lookup name G with
  | none => rw [hg] at h; cases h
  | some comp =>
    rw [hg] at h
    by_cases h1 : (comp.is_lazy_variadic && !(rest.all (fun n => lazyOf G n))) = true
    · simp only [h1, if_true] at h
      exact ⟨comp, rfl, h1, (SubBranchOut.sskip.inj h).symm⟩
    · have h1' : (comp.is_lazy_variadic && !(rest.all (fun n => lazyOf G n))) = false := by
        simpa using h1
      simp only [h1', Bool.false_eq_true, if_false] at h
      by_cases h2 : O.hasEnough name st.core.store = true
      · simp only [h2, if_true] at h
        by_cases h3 : visitsOf st.core.visits name > maxRuns
        · simp only [if_pos h3] at h; cases h
        · simp only [if_neg h3] at h
          cases hr : (runComponent comp (inputsOf st.core.store name)
              (visitsOf st.core.visits name)).result with
          | none => rw [hr] at h; cases h
          | some res => rw [hr] at h; cases h
      · have h2' : O.hasEnough name st.core.store = false := by simpa using h2
        simp only [h2', Bool.false_eq_true, if_false] at h
        cases h

theorem subBranch_maxruns_iff (O : Oracles) (G : Graph) (maxRuns : Nat) (cycle : List String)
    (name : String) (rest : List String) (st : SubState) (comp : Comp)
    (hg : List.lookup name G = some comp)
    (hdef : (comp.is_lazy_variadic && !(rest.all (fun n => lazyOf G n))) = false)
    (hen : O.hasEnough name st.core.store = true) :
    subBranch O G maxRuns cycle name rest st = SubBranchOut.serr [] (PErr.maxRunsExceeded name)
      ↔ visitsOf st.core.visits name > maxRuns := by
  unfold subBranch
  rw [hg]
  simp only [hdef, Bool.false_eq_true, if_false, hen, if_true]
  constructor
  · intro h
    by_cases h3 : visitsOf st.core.visits name > maxRuns
    · exact h3
    · rw [if_neg h3] at h
      cases hr : (runComponent comp (inputsOf st.core.store name)
          (visitsOf st.core.visits name)).result with
      | none => rw [hr] at h; simp at h
      | some res => rw [hr] at h; cases h
  · intro h3
    rw [if_pos h3]

theorem mainBranch_defer (O : Oracles) (G : Graph) (cyclesOf : String → List (List String))
    (maxRuns fuel : Nat) (name : String) (rest : List String) (st : MainState) (comp : Comp)
    (hg : List.lookup name G = some comp)
    (hlazy : comp.is_lazy_variadic = true)
    (hall : rest.all (fun n => lazyOf G n) = false) :
    mainBranch O G cyclesOf maxRuns fuel name rest st =
      MainBranchOut.bskip
        { st with
          core := { st.core with runQueue := rest, waiting := enqueueWaiting name st.core.waiting } } := by
  unfold mainBranch
  rw [hg]
  simp [hlazy, hall]

theorem mainBranch_bskip_cases (O : Oracles) (G : Graph) (cyclesOf : String → List (List String))
    (maxRuns fuel : Nat) (name : String) (rest : List String) (st : MainState) (st' : MainState)
    (h : mainBranch O G cyclesOf maxRuns fuel name rest st = MainBranchOut.bskip st') :
    ∃ comp, List.lookup name G = some comp ∧
      (comp.is_lazy_variadic && !(rest.all (fun n => lazyOf G n))) = true ∧
      st' = { st with
              core := { st.core with
                        runQueue := rest, waiting := enqueueWaiting name st.core.waiting } } := by
  unfold mainBranch at h
  cases hg : List.lookup name G with
  | none => rw [hg] at h; cases h
  | some comp =>
    rw [hg] at h
    by_cases h1 : (comp.is_lazy_variadic && !(rest.all (fun n => lazyOf G n))) = true
    · simp only [h1, if_true] at h
      exact ⟨comp, rfl, h1, (MainBranchOut.bskip.inj h).symm⟩
    · have h1' : (comp.is_lazy_variadic && !(rest.all (fun n => lazyOf G n))) = false := by
        simpa using h1
      simp only [h1', Bool.false_eq_true, if_false] at h
      by_cases h2 : (O.hasEnough name st.core.store && !(cyclesOf name).isEmpty) = true
      · simp only [h2, if_true] at h
        split at h <;> try (cases h)
        split at h <;> cases h
      · have h2' : (O.hasEnough name st.core.store && !(cyclesOf name).isEmpty) = false := by
          simpa using h2
        simp only [h2', Bool.false_eq_true, if_false] at h
        by_cases h3 : O.hasEnough name st.core.store = true
        · simp only [h3, if_true] at h
          by_cases h4 : visitsOf st.core.visits name > maxRuns
          · simp only [if_pos h4] at h; cases h
          · simp only [if_neg h4] at h
            cases hr : (runComponent comp (inputsOf st.core.store name)
                (visitsOf st.core.visits name)).result with
            | none => rw [hr] at h; cases h
            | some res => rw [hr] at h; cases h
        · have h3' : O.hasEnough name st.core.store = false := by simpa using h3
          simp only [h3', Bool.false_eq_true, if_false] at h
          cases h

theorem mainBranch_bdrain_cases (O : Oracles) (G : Graph) (cyclesOf : String → List (List String))
    (maxRuns fuel : Nat) (name : String) (rest : List String) (st : MainState)
    (ys : List Yield) (st' : MainState)
    (h : mainBranch O G cyclesOf maxRuns fuel name rest st = MainBranchOut.bdrain ys st') :
    (ys = [] ∧
      st' = { st with
              core := { st.core with
                        runQueue := rest, waiting := enqueueWaiting name st.core.waiting } }) ∨
    (∃ comp res, List.lookup name G = some comp ∧
      (comp.is_lazy_variadic && !(rest.all (fun n => lazyOf G n))) = false ∧
      O.hasEnough name st.core.store = true ∧
      visitsOf st.core.visits name ≤ maxRuns ∧
      (runComponent comp (inputsOf st.core.store name) (visitsOf st.core.visits name)).result
        = some res ∧
      ys = [[(name, res)]] ∧ st' = mainRunPost O name rest st comp res) ∨
    (∃ comp cyc sst, List.lookup name G = some comp ∧
      (comp.is_lazy_variadic && !(rest.all (fun n => lazyOf G n))) = false ∧
      O.hasEnough name st.core.store = true ∧
      (cyclesOf name).head? = some cyc ∧
      (subLoop O G maxRuns cyc fuel (subInit cyc name st.core.store st.core.visits)
          = SubResult.done ys sst ∨
       subLoop O G maxRuns cyc fuel (subInit cyc name st.core.store st.core.visits)
          = SubResult.stuck ys sst) ∧
      st' = mainCyclePost O st sst) := by
  unfold mainBranch at h
  cases hg : List.lookup name G with
  | none => rw [hg] at h; cases h
  | some comp =>
    rw [hg] at h
    by_cases h1 : (comp.is_lazy_variadic && !(rest.all (fun n => lazyOf G n))) = true
    · simp only [h1, if_true] at h; cases h
    · have h1' : (comp.is_lazy_variadic && !(rest.all (fun n => lazyOf G n))) = false := by
        simpa using h1
      simp only [h1', Bool.false_eq_true, if_false] at h
      by_cases h2 : (O.hasEnough name st.core.store && !(cyclesOf name).isEmpty) = true
      · simp only [h2, if_true] at h
        have h2a : O.hasEnough name st.core.store = true := ((Bool.and_eq_true _ _).mp h2).1
        split at h
        · cases h
        · rename_i cyc hh
          split at h
          · cases h
          · cases h
          · rename_i ys2 sst hs
            obtain ⟨hys, hst⟩ := MainBranchOut.bdrain.inj h
            subst hys
            exact Or.inr (Or.inr ⟨comp, cyc, sst, rfl, h1', h2a, hh, Or.inl hs, hst.symm⟩)
          · rename_i ys2 sst hs
            obtain ⟨hys, hst⟩ := MainBranchOut.bdrain.inj h
            subst hys
            exact Or.inr (Or.inr ⟨comp, cyc, sst, rfl, h1', h2a, hh, Or.inr hs, hst.symm⟩)
      · have h2' : (O.hasEnough name st.core.store && !(cyclesOf name).isEmpty) = false := by
          simpa using h2
        simp only [h2', Bool.false_eq_true, if_false] at h
        by_cases h3 : O.hasEnough name st.core.store = true
        · simp only [h3, if_true] at h
          by_cases h4 : visitsOf st.core.visits name > maxRuns
          · simp only [if_pos h4] at h; cases h
          · simp only [if_neg h4] at h
            cases hr : (runComponent comp (inputsOf st.core.store name)
                (visitsOf st.core.visits name)).result with
            | none => rw [hr] at h; cases h
            | some res =>
              rw [hr] at h
              obtain ⟨hys, hst⟩ := MainBranchOut.bdrain.inj h
              exact Or.inr (Or.inl ⟨comp, res, rfl, h1', h3, Nat.le_of_not_lt h4, hr,
                hys.symm, hst.symm⟩)
        · have h3' : O.hasEnough name st.core.store = false := by simpa using h3
          simp only [h3', Bool.false_eq_true, if_false] at h
          obtain ⟨hys, hst⟩ := MainBranchOut.bdrain.inj h
          exact Or.inl ⟨hys.symm, hst.symm⟩

theorem mainBranch_maxruns_iff (O : Oracles) (G : Graph) (cyclesOf : String → List (List String))
    (maxRuns fuel : Nat) (name : String) (rest : List String) (st : MainState) (comp : Comp)
    (hg : List.lookup name G = some comp)
    (hdef : (comp.is_lazy_variadic && !(rest.all (fun n => lazyOf G n))) = false)
    (hcyc : cyclesOf name = [])
    (hen : O.hasEnough name st.core.store = true) :
    mainBranch O G cyclesOf maxRuns fuel name rest st
        = MainBranchOut.berr [] (PErr.maxRunsExceeded name)
      ↔ visitsOf st.core.visits name > maxRuns := by
  unfold mainBranch
  rw [hg]
  simp only [hdef, Bool.false_eq_true, if_false, hcyc, List.isEmpty_nil, Bool.not_true,
    Bool.and_false, hen, if_true]
  constructor
  · intro h
    by_cases h3 : visitsOf st.core.visits name > maxRuns
    · exact h3
    · rw [if_neg h3] at h
      cases hr : (runComponent comp (inputsOf st.core.store name)
          (visitsOf st.core.visits name)).result with
      | none => rw [hr] at h; simp at h
      | some res => rw [hr] at h; cases h
  · intro h3
    rw [if_pos h3]

theorem runComponent_visits (comp : Comp) (inputs : SockMap) (visits : Nat) :
    (runComponent comp inputs visits).visits = visits + 1 := by
  unfold runComponent
  cases comp.runFn inputs <;> rfl

theorem runComponent_inputs (comp : Comp) (inputs : SockMap) (visits : Nat) :
    (runComponent comp inputs visits).inputs = resetVariadics comp inputs := by
  unfold runComponent
  cases comp.runFn inputs <;> rfl

theorem drainCheck_visits (O : Oracles) (core core' : SchedCore)
    (h : drainCheck O core = some core') : core'.visits = core.visits := by
  unfold drainCheck at h
  split at h
  · split at h
    · split at h
      · split at h
        · cases h
        · cases h
          rfl
      · cases h
        rfl
    · cases h
      rfl
  · cases h
    rfl

theorem drainCheck_none_iff (O : Oracles) (core : SchedCore) :
    drainCheck O core = none ↔
      core.runQueue = [] ∧ core.waiting ≠ [] ∧
      ∃ a b, core.beforeLast = some a ∧ core.lastWaiting = some b ∧ setEq a b = true ∧
        O.isStuck core.waiting = true := by
  unfold drainCheck
  by_cases h1 : (core.runQueue.isEmpty && !core.waiting.isEmpty) = true
  · have hq : core.runQueue = [] := by
      simpa using ((Bool.and_eq_true _ _).mp h1).1
    have hw : core.waiting ≠ [] := by
      simpa using ((Bool.and_eq_true _ _).mp h1).2
    simp only [h1, if_true]
    cases hbl : core.beforeLast with
    | none => simp [hq, hw, hbl]
    | some a =>
      cases hlw : core.lastWaiting with
      | none => simp [hq, hw, hbl, hlw]
      | some b =>
        by_cases hse : setEq a b = true
        · by_cases hst : O.isStuck core.waiting = true
          · simp [hq, hw, hbl, hlw, hse, hst]
          · simp only [hse, if_true]
            have hst' : O.isStuck core.waiting = false := by simpa using hst
            simp [hq, hw, hbl, hlw, hse, hst']
        · have hse' : setEq a b = false := by simpa using hse
          simp [hq, hw, hbl, hlw, hse']
  · have h1' : (core.runQueue.isEmpty && !core.waiting.isEmpty) = false := by simpa using h1
    simp only [h1', Bool.false_eq_true, if_false]
    constructor
    · intro h; cases h
    · rintro ⟨hq, hw, -⟩
      exfalso
      have : (core.runQueue.isEmpty && !core.waiting.isEmpty) = true := by
        simp [hq, hw]
      simp [this] at h1'

theorem drainCheck_afterReset (O : Oracles) (core core' : SchedCore)
    (hbl : core.beforeLast = none) (hlw : core.lastWaiting = none)
    (h : drainCheck O core = some core') : core'.beforeLast = none := by
  unfold drainCheck at h
  by_cases h1 : (core.runQueue.isEmpty && !core.waiting.isEmpty) = true
  · simp only [h1, if_true, hbl, hlw] at h
    cases h
    simpa [drainAdvance] using hlw
  · have h1' : (core.runQueue.isEmpty && !core.waiting.isEmpty) = false := by simpa using h1
    simp only [h1', Bool.false_eq_true, if_false] at h
    cases h
    exact hbl

theorem distributeSubOutputs_core (O : Oracles) (items : List (String × SockMap))
    (core : SchedCore) (fo : List (String × SockMap)) :
    ((distributeSubOutputs O items core fo).1).visits = core.visits ∧
    ((distributeSubOutputs O items core fo).1).beforeLast = core.beforeLast ∧
    ((distributeSubOutputs O items core fo).1).lastWaiting = core.lastWaiting := by
  induction items generalizing core fo with
  | nil => exact ⟨rfl, rfl, rfl⟩
  | cons p rest ih =>
    obtain ⟨cname, cout⟩ := p
    simp only [distributeSubOutputs]
    exact ⟨(ih _ _).1, (ih _ _).2.1, (ih _ _).2.2⟩

theorem mainRunPost_core (O : Oracles) (name : String) (rest : List String) (st : MainState)
    (comp : Comp) (res : SockMap) :
    (mainRunPost O name rest st comp res).core.beforeLast = none ∧
    (mainRunPost O name rest st comp res).core.lastWaiting = none ∧
    (mainRunPost O name rest st comp res).core.visits
      = setA st.core.visits name (visitsOf st.core.visits name + 1) := by
  refine ⟨rfl, rfl, ?_⟩
  simp [mainRunPost, runComponent_visits]

theorem subRunPost_core (O : Oracles) (cycle : List String) (name : String)
    (rest : List String) (st : SubState) (comp : Comp) (res : SockMap) :
    (subRunPost O cycle name rest st comp res).core.beforeLast = none ∧
    (subRunPost O cycle name rest st comp res).core.lastWaiting = none ∧
    (subRunPost O cycle name rest st comp res).core.visits
      = setA st.core.visits name (visitsOf st.core.visits name + 1) ∧
    (subRunPost O cycle name rest st comp res).cycleReceivedInputs
      = (st.cycleReceivedInputs || !(outputReachesCycle cycle comp res)) := by
  refine ⟨rfl, rfl, ?_, rfl⟩
  simp [subRunPost, runComponent_visits]

theorem mainCyclePost_core (O : Oracles) (st : MainState) (sst : SubState) :
    (mainCyclePost O st sst).core.beforeLast = none ∧
    (mainCyclePost O st sst).core.lastWaiting = none ∧
    (mainCyclePost O st sst).core.visits = sst.core.visits := by
  unfold mainCyclePost
  refine ⟨(distributeSubOutputs_core O _ _ _).2.1.trans rfl,
    (distributeSubOutputs_core O _ _ _).2.2.trans rfl,
    (distributeSubOutputs_core O _ _ _).1.trans rfl⟩

theorem subLoop_done_cri (O : Oracles) (G : Graph) (maxRuns : Nat) (cycle : List String) :
    ∀ (fuel : Nat) (st : SubState) (ys : List Yield) (st' : SubState),
      subLoop O G maxRuns cycle fuel st = SubResult.done ys st' →
      st'.cycleReceivedInputs = true := by
  intro fuel
  induction fuel with
  | zero => intro st ys st' h; cases h
  | succ fuel ih =>
    intro st ys st' h
    simp only [subLoop] at h
    by_cases hcri : st.cycleReceivedInputs = true
    · rw [if_pos hcri] at h
      obtain ⟨hys, hst⟩ := SubResult.done.inj h
      rw [← hst]
      exact hcri
    · have hcri' : st.cycleReceivedInputs = false := by simpa using hcri
      simp only [hcri', Bool.false_eq_true, if_false] at h
      cases hq : st.core.runQueue with
      | nil => rw [hq] at h; cases h
      | cons name rest =>
        rw [hq] at h
        simp only [] at h
        cases hb : subBranch O G maxRuns cycle name rest st with
        | serr ys2 e => rw [hb] at h; cases h
        | sskip st2 => rw [hb] at h; exact ih st2 ys st' h
        | sdrain ys2 st2 =>
          rw [hb] at h
          simp only [] at h
          cases hd : drainCheck O st2.core with
          | none => rw [hd] at h; cases h
          | some core2 =>
            rw [hd] at h
            simp only [] at h
            cases hs : subLoop O G maxRuns cycle fuel { st2 with core := core2 } with
            | done ys3 st3 =>
              rw [hs] at h
              simp only [subPrepend] at h
              obtain ⟨hys, hst⟩ := SubResult.done.inj h
              rw [← hst]
              exact ih _ _ _ hs
            | stuck ys3 st3 => rw [hs] at h; simp [subPrepend] at h
            | failed ys3 e => rw [hs] at h; simp [subPrepend] at h
            | outOfFuel => rw [hs] at h; simp [subPrepend] at h

theorem subPrepend_finalState (ys : List Yield) (r : SubResult) :
    (subPrepend ys r).finalState = r.finalState := by
  cases r <;> rfl

theorem mainPrepend_finalState (ys : List Yield) (r : MainResult) :
    (mainPrepend ys r).finalState = r.finalState := by
  cases r <;> rfl

theorem subLoop_visits_bound (O : Oracles) (G : Graph) (maxRuns : Nat) (cycle : List String) :
    ∀ (fuel : Nat) (st : SubState) (st' : SubState),
      (∀ n, visitsOf st.core.visits n ≤ maxRuns + 1) →
      (subLoop O G maxRuns cycle fuel st).finalState = some st' →
      ∀ n, visitsOf st'.core.visits n ≤ maxRuns + 1 := by
  intro fuel
  induction fuel with
  | zero => intro st st' hb h; cases h
  | succ fuel ih =>
    intro st st' hbound h
    by_cases hcri : st.cycleReceivedInputs = true
    · simp only [subLoop] at h
      rw [if_pos hcri] at h
      simp only [SubResult.finalState] at h
      cases h
      exact hbound
    · have hcri' : st.cycleReceivedInputs = false := by simpa using hcri
      simp only [subLoop, hcri', Bool.false_eq_true, if_false] at h
      cases hq : st.core.runQueue with
      | nil => rw [hq] at h; cases h
      | cons name rest =>
        rw [hq] at h
        simp only [] at h
        cases hb : subBranch O G maxRuns cycle name rest st with
        | serr ys2 e => rw [hb] at h; cases h
        | sskip st2 =>
          rw [hb] at h
          obtain ⟨comp, hg, hdef, hst2⟩ := subBranch_sskip_cases _ _ _ _ _ _ _ _ hb
          have hbound2 : ∀ n, visitsOf st2.core.visits n ≤ maxRuns + 1 := by
            rw [hst2]; exact hbound
          exact ih st2 st' hbound2 h
        | sdrain ys2 st2 =>
          rw [hb] at h
          simp only [] at h
          have hbound2 : ∀ n, visitsOf st2.core.visits n ≤ maxRuns + 1 := by
            rcases subBranch_sdrain_cases _ _ _ _ _ _ _ _ _ hb with
              ⟨_, hst2⟩ | ⟨comp, res, hg, hdef, hen, hvle, hres, hys, hst2⟩
            · rw [hst2]; exact hbound
            · rw [hst2]
              intro n
              rw [(subRunPost_core O cycle name rest st comp res).2.2.1, visitsOf_setA]
              by_cases hn : n = name
              · rw [if_pos hn]; exact Nat.succ_le_succ hvle
              · rw [if_neg hn]; exact hbound n
          cases hd : drainCheck O st2.core with
          | none =>
            rw [hd] at h
            simp only [SubResult.finalState] at h
            cases h
            exact hbound2
          | some core2 =>
            rw [hd] at h
            simp only [] at h
            rw [subPrepend_finalState] at h
            have hbound3 : ∀ n, visitsOf core2.visits n ≤ maxRuns + 1 := by
              intro n
              rw [drainCheck_visits O st2.core core2 hd]
              exact hbound2 n
            exact ih _ st' hbound3 h

/-- C5: for every run of the main scheduling loop that finishes without raising
(`done`, covering both the natural exit and the `StuckInLoop` break), the stream of
yields ends with the accumulated `final_outputs` map and nothing is yielded after
it. -/
theorem c5_terminal_yield (O : Oracles) (G : Graph) (cyclesOf : String → List (List String))
    (maxRuns : Nat) :
    ∀ (fuel : Nat) (st : MainState) (b : Bool) (ys : List Yield) (st' : MainState),
      mainLoop O G cyclesOf maxRuns fuel st = MainResult.done b ys st' →
      ∃ ys0, ys = ys0 ++ [st'.finalOutputs] := by
  intro fuel
  induction fuel with
  | zero => intro st b ys st' h; cases h
  | succ fuel ih =>
    intro st b ys st' h
    simp only [mainLoop] at h
    cases hq : st.core.runQueue with
    | nil =>
      rw [hq] at h
      simp only [] at h
      obtain ⟨hb, hys, hst⟩ := MainResult.done.inj h
      exact ⟨[], by rw [← hys, ← hst]; rfl⟩
    | cons name rest =>
      rw [hq] at h
      simp only [] at h
      cases hb : mainBranch O G cyclesOf maxRuns fuel name rest st with
      | bfuel => rw [hb] at h; cases h
      | berr ys2 e => rw [hb] at h; cases h
      | bskip st2 => rw [hb] at h; exact ih st2 b ys st' h
      | bdrain ys2 st2 =>
        rw [hb] at h
        simp only [] at h
        cases hd : drainCheck O st2.core with
        | none =>
          rw [hd] at h
          obtain ⟨hb2, hys, hst⟩ := MainResult.done.inj h
          exact ⟨ys2, by rw [← hys, ← hst]⟩
        | some core2 =>
          rw [hd] at h
          simp only [] at h
          cases hs : mainLoop O G cyclesOf maxRuns fuel { st2 with core := core2 } with
          | done b2 ys3 st3 =>
            rw [hs] at h
            simp only [mainPrepend] at h
            obtain ⟨hb2, hys, hst⟩ := MainResult.done.inj h
            obtain ⟨ys0, hys0⟩ := ih _ _ _ _ hs
            refine ⟨ys2 ++ ys0, ?_⟩
            rw [← hys, ← hst, hys0, List.append_assoc]
          | failed ys3 e => rw [hs] at h; simp [mainPrepend] at h
          | outOfFuel => rw [hs] at h; simp [mainPrepend] at h

theorem mainLoop_visits_bound (O : Oracles) (G : Graph) (cyclesOf : String → List (List String))
    (maxRuns : Nat) :
    ∀ (fuel : Nat) (st : MainState) (st' : MainState),
      (∀ n, visitsOf st.core.visits n ≤ maxRuns + 1) →
      (mainLoop O G cyclesOf maxRuns fuel st).finalState = some st' →
      ∀ n, visitsOf st'.core.visits n ≤ maxRuns + 1 := by
  intro fuel
  induction fuel with
  | zero => intro st st' hb h; cases h
  | succ fuel ih =>
    intro st st' hbound h
    simp only [mainLoop] at h
    cases hq : st.core.runQueue with
    | nil =>
      rw [hq] at h
      simp only [MainResult.finalState] at h
      cases h
      exact hbound
    | cons name rest =>
      rw [hq] at h
      simp only [] at h
      cases hb : mainBranch O G cyclesOf maxRuns fuel name rest st with
      | bfuel => rw [hb] at h; cases h
      | berr ys2 e => rw [hb] at h; cases h
      | bskip st2 =>
        rw [hb] at h
        obtain ⟨comp, hg, hdef, hst2⟩ := mainBranch_bskip_cases _ _ _ _ _ _ _ _ _ hb
        have hbound2 : ∀ n, visitsOf st2.core.visits n ≤ maxRuns + 1 := by
          rw [hst2]; exact hbound
        exact ih st2 st' hbound2 h
      | bdrain ys2 st2 =>
        rw [hb] at h
        simp only [] at h
        have hbound2 : ∀ n, visitsOf st2.core.visits n ≤ maxRuns + 1 := by
          rcases mainBranch_bdrain_cases _ _ _ _ _ _ _ _ _ _ hb with
            ⟨_, hst2⟩ | ⟨comp, res, hg, hdef, hen, hvle, hres, hys, hst2⟩ |
            ⟨comp, cyc, sst, hg, hdef, hen, hh, hsub, hst2⟩
          · rw [hst2]; exact hbound
          · rw [hst2]
            intro n
            rw [(mainRunPost_core O name rest st comp res).2.2, visitsOf_setA]
            by_cases hn : n = name
            · rw [if_pos hn]; exact Nat.succ_le_succ hvle
            · rw [if_neg hn]; exact hbound n
          · rw [hst2]
            intro n
            rw [(mainCyclePost_core O st sst).2.2]
            have hfs : (subLoop O G maxRuns cyc fuel
                (subInit cyc name st.core.store st.core.visits)).finalState = some sst := by
              rcases hsub with hs | hs <;> rw [hs] <;> rfl
            exact subLoop_visits_bound O G maxRuns cyc fuel _ sst hbound hfs n
        cases hd : drainCheck O st2.core with
        | none =>
          rw [hd] at h
          simp only [MainResult.finalState] at h
          cases h
          exact hbound2
        | some core2 =>
          rw [hd] at h
          simp only [] at h
          rw [mainPrepend_finalState] at h
          have hbound3 : ∀ n, visitsOf core2.visits n ≤ maxRuns + 1 := by
            intro n
            rw [drainCheck_visits O st2.core core2 hd]
            exact hbound2 n
          exact ih _ st' hbound3 h

/-- C1 counterexample: the scheduler's guard is `visits > max_runs_per_component`
(strict), not `visits ≥ max_runs_per_component`.  In the self-looping breakable cycle
with `max_runs_per_component = 3`, the run fails only at the fifth attempt, after FOUR
successful runs (four intermediate yields), and at a state with
`visits["a"] = 3 = max_runs_per_component` the component is invoked rather than
failing with `MaxRunsExceeded`. -/
theorem c1_max_runs_counterexample :
    subLoop O1 G1 3 ["a"] 8 (subInit ["a"] "a" [] [])
        = SubResult.failed [yieldA1, yieldA1, yieldA1, yieldA1] (PErr.maxRunsExceeded "a") ∧
    3 ≤ visitsOf c1State3.core.visits "a" ∧
    subBranch O1 G1 3 ["a"] "a" [] c1State3
        ≠ SubBranchOut.serr [] (PErr.maxRunsExceeded "a") := by
  refine ⟨by rfl, by decide, by decide⟩

/-- C6 counterexample: the cycle sub-scheduler's loop does not terminate only when
`cycle_received_inputs` becomes true — it can also terminate through the `StuckInLoop`
break.  In the never-ready cycle scenario the loop exits via the break while
`cycle_received_inputs` is still false. -/
theorem c6_termination_counterexample :
    subLoop O2 G2 100 ["a"] 4 (subInit ["a"] "a" [] []) = SubResult.stuck [] c6State ∧
    c6State.cycleReceivedInputs = false := by
  refine ⟨by rfl, by rfl⟩

/-- C2 (code bug): with `include_outputs_from = None` the filter
`include_outputs_from is None or k in include_outputs_from` is true for every
component name, so `run_async_pipeline` merges every intermediate output into the
returned map.  On the docstring's own `hello → hello2` stream the non-leaf `hello`
appears in the result even though it has no leaf output, contradicting the documented
"If `include_outputs_from` is `None`, this dictionary will only contain the outputs of
leaf components".  With an explicit empty set the result is exactly the terminal
`final_outputs`. -/
theorem c2_include_outputs_divergence :
    List.lookup "hello" (runAsyncPipelineResult helloStream none)
        = some [("output", Value.vstr "Hello, world!")] ∧
    List.lookup "hello" (helloStream.getLast?.getD []) = none ∧
    runAsyncPipelineResult helloStream (some []) = helloStream.getLast?.getD [] := by
  refine ⟨by rfl, by rfl, by rfl⟩

/-- C3 counterexample: for the cycle `["a", "b"]` entered at `"b"`, the seeded run
queue is `cycle[start_index:] = ["b"]`: it is not the rotation of the cycle and does
not contain every component of the cycle — `"a"` is missing. -/
theorem c3_seed_counterexample :
    seedRunQueue ["a", "b"] "b" = ["b"] ∧
    "a" ∈ (["a", "b"] : List String) ∧
    "a" ∉ seedRunQueue ["a", "b"] "b" ∧
    seedRunQueue ["a", "b"] "b" ≠ rotateAt ["a", "b"] "b" := by
  refine ⟨by rfl, by decide, by decide, by decide⟩

/-- C3 (amended): the cycle sub-scheduler's initial run queue is the contiguous suffix
of the cycle list starting at the first occurrence of `component_name`: its head is
`component_name` and it is a suffix of the cycle (the components listed before
`component_name` are not seeded). -/
theorem c3_seed_amended (cycle : List String) (componentName : String)
    (h : componentName ∈ cycle) :
    (seedRunQueue cycle componentName).head? = some componentName ∧
    seedRunQueue cycle componentName <:+ cycle :=
  ⟨seedRunQueue_head cycle componentName h, List.drop_suffix _ _⟩

/-- Witness for `c3_seed_amended` at the concrete cycle `["a", "b"]` and start `"b"`. -/
theorem c3_seed_amended_witness :
    "b" ∈ (["a", "b"] : List String) ∧
    ((seedRunQueue ["a", "b"] "b").head? = some "b" ∧ seedRunQueue ["a", "b"] "b" <:+ ["a", "b"]) :=
  ⟨by decide, c3_seed_amended ["a", "b"] "b" (by decide)⟩

/-- C7: inside the cycle sub-scheduler, a consumed input-store entry of the component
that just ran is deleted if and only if its socket has a non-empty senders set all of
whose members are inside the cycle; user-provided sockets (empty senders) and sockets
with any sender outside the cycle are retained unchanged. -/
theorem c7_cycle_input_deletion (cycle : List String) (comp : Comp) (m : SockMap)
    (s : Socket) (hnd : (comp.input_sockets.map Socket.name).Nodup)
    (hmem : s ∈ comp.input_sockets) :
    List.lookup s.name (deleteConsumedInCycle cycle comp m) =
      if s.senders ≠ [] ∧ ∀ x ∈ s.senders, x ∈ cycle then none
      else List.lookup s.name m := by
  unfold deleteConsumedInCycle
  rw [lookup_filter_key m
    (fun k => (sendersOf comp k).isEmpty || !((sendersOf comp k).all (fun x => cycle.contains x)))
    s.name]
  rw [sendersOf_eq comp s hnd hmem]
  by_cases hc1 : s.senders = []
  · simp [hc1]
  · have hne : s.senders.isEmpty = false := by
      simpa [List.isEmpty_iff] using hc1
    by_cases hc2 : ∀ x ∈ s.senders, x ∈ cycle
    · have hall : s.senders.all (fun x => cycle.contains x) = true := by
        rw [List.all_eq_true]
        intro x hx
        simpa using hc2 x hx
      rw [hne, hall]
      simp only [Bool.not_true, Bool.or_false, Bool.false_eq_true, if_false]
      rw [if_pos ⟨hc1, hc2⟩]
    · have hall : s.senders.all (fun x => cycle.contains x) = false := by
        rcases Bool.eq_false_or_eq_true (s.senders.all (fun x => cycle.contains x)) with h | h
        · exfalso
          apply hc2
          intro x hx
          have := List.all_eq_true.mp h x hx
          simpa using this
        · exact h
      rw [hne, hall]
      simp only [Bool.not_false, Bool.or_true, if_true]
      rw [if_neg (fun hcon => hc2 hcon.2)]

/-- C8: after a successful plain (non-cycle) component run, an input-store entry of the
component is deleted exactly when its socket has senders; user-only entries (no
senders) are retained, with the consumed variadic ones reset to the empty sequence and
the rest unchanged. -/
theorem c8_plain_run_consumption (comp : Comp) (m : SockMap) (s : Socket)
    (hnd : (comp.input_sockets.map Socket.name).Nodup)
    (hmem : s ∈ comp.input_sockets) :
    List.lookup s.name (deleteConsumedInputs comp (resetVariadics comp m)) =
      if s.senders ≠ [] then none
      else if (List.lookup s.name m).isSome = true ∧ s.is_variadic = true then
        some (Value.vseq [])
      else List.lookup s.name m := by
  unfold deleteConsumedInputs
  rw [lookup_filter_key (resetVariadics comp m) (fun k => (sendersOf comp k).isEmpty) s.name]
  rw [sendersOf_eq comp s hnd hmem]
  rw [lookup_resetVariadics, isVariadicSocket_eq comp s hnd hmem]
  by_cases hc1 : s.senders = []
  · have he : s.senders.isEmpty = true := by simp [hc1]
    by_cases hv : s.is_variadic = true
    · cases hl : List.lookup s.name m with
      | none => simp [he, hv, hc1, hl]
      | some v => simp [he, hv, hc1, hl]
    · have hv' : s.is_variadic = false := by simpa using hv
      simp [he, hv', hc1]
  · have he : s.senders.isEmpty = false := by simpa [List.isEmpty_iff] using hc1
    simp [he, hc1]

/-- C10: when a component's result is not a `Mapping`, `_run_component` raises
`PipelineRuntimeError` only after incrementing the component's visit counter and
resetting its consumed variadic input sockets to empty sequences: the failed
invocation still counts toward the visit budget. -/
theorem c10_contract_violation (comp : Comp) (inputs : SockMap) (visits : Nat)
    (hnd : (comp.input_sockets.map Socket.name).Nodup)
    (hres : comp.runFn inputs = CompResult.notMapping) :
    (runComponent comp inputs visits).result = none ∧
    (runComponent comp inputs visits).visits = visits + 1 ∧
    ∀ s ∈ comp.input_sockets, s.is_variadic = true →
      (List.lookup s.name inputs).isSome = true →
      List.lookup s.name (runComponent comp inputs visits).inputs = some (Value.vseq []) := by
  refine ⟨?_, runComponent_visits comp inputs visits, ?_⟩
  · unfold runComponent
    rw [hres]
  · intro s hs hv hp
    rw [runComponent_inputs, lookup_resetVariadics, isVariadicSocket_eq comp s hnd hs, hv]
    cases hl : List.lookup s.name inputs with
    | none => rw [hl] at hp; cases hp
    | some v => simp [hl]

/-- Witness for `c7_cycle_input_deletion`: the self-loop component's socket `in` with
sender `a` inside the cycle `["a"]` is deleted from the store. -/
theorem c7_cycle_input_deletion_witness :
    ((compA1.input_sockets.map Socket.name).Nodup ∧
     ({ name := "in", senders := ["a"], is_variadic := false } : Socket)
       ∈ compA1.input_sockets) ∧
    List.lookup "in" (deleteConsumedInCycle ["a"] compA1 [("in", Value.vnat 5)]) =
      (if (["a"] : List String) ≠ [] ∧ ∀ x ∈ (["a"] : List String), x ∈ (["a"] : List String)
       then none else List.lookup "in" [("in", Value.vnat 5)]) :=
  ⟨⟨by decide, by decide⟩,
   c7_cycle_input_deletion ["a"] compA1 [("in", Value.vnat 5)]
     { name := "in", senders := ["a"], is_variadic := false } (by decide) (by decide)⟩

/-- Witness for `c8_plain_run_consumption`: a user-only variadic socket is retained and
reset to the empty sequence. -/
theorem c8_plain_run_consumption_witness :
    ((compBad.input_sockets.map Socket.name).Nodup ∧
     ({ name := "v", senders := [], is_variadic := true } : Socket)
       ∈ compBad.input_sockets) ∧
    List.lookup "v" (deleteConsumedInputs compBad (resetVariadics compBad [("v", Value.vseq ["x"])])) =
      (if ([] : List String) ≠ [] then none
       else if (List.lookup "v" [("v", Value.vseq ["x"])]).isSome = true ∧ true = true then
         some (Value.vseq [])
       else List.lookup "v" [("v", Value.vseq ["x"])]) :=
  ⟨⟨by decide, by decide⟩,
   c8_plain_run_consumption compBad [("v", Value.vseq ["x"])]
     { name := "v", senders := [], is_variadic := true } (by decide) (by decide)⟩

/-- Witness for `c10_contract_violation`: `compBad` returns a non-mapping; the failed
invocation still increments `visits` and resets the consumed variadic socket. -/
theorem c10_contract_violation_witness :
    ((compBad.input_sockets.map Socket.name).Nodup ∧
     compBad.runFn [("v", Value.vseq ["x"])] = CompResult.notMapping) ∧
    ((runComponent compBad [("v", Value.vseq ["x"])] 0).result = none ∧
     (runComponent compBad [("v", Value.vseq ["x"])] 0).visits = 0 + 1 ∧
     ∀ s ∈ compBad.input_sockets, s.is_variadic = true →
       (List.lookup s.name [("v", Value.vseq ["x"])]).isSome = true →
       List.lookup s.name (runComponent compBad [("v", Value.vseq ["x"])] 0).inputs
         = some (Value.vseq [])) :=
  ⟨⟨by decide, by rfl⟩,
   c10_contract_violation compBad [("v", Value.vseq ["x"])] 0 (by decide) (by rfl)⟩

/-- C4: lazy-variadic deferral.  In both the main loop and the cycle sub-scheduler,
when the popped head is lazy-variadic and not every remaining run-queue entry is
lazy-variadic, the head is pushed onto the waiting queue without being invoked; hence
a lazy-variadic component only ever runs when every remaining run-queue entry is also
lazy-variadic. -/
theorem c4_lazy_variadic_deferral :
    (∀ (O : Oracles) (G : Graph) (maxRuns : Nat) (cycle : List String) (name : String)
        (rest : List String) (st : SubState) (comp : Comp),
        List.lookup name G = some comp → comp.is_lazy_variadic = true →
        rest.all (fun n => lazyOf G n) = false →
        subBranch O G maxRuns cycle name rest st =
          SubBranchOut.sskip
            { st with
              core := { st.core with
                        runQueue := rest, waiting := enqueueWaiting name st.core.waiting } }) ∧
    (∀ (O : Oracles) (G : Graph) (cyclesOf : String → List (List String))
        (maxRuns fuel : Nat) (name : String) (rest : List String) (st : MainState)
        (comp : Comp),
        List.lookup name G = some comp → comp.is_lazy_variadic = true →
        rest.all (fun n => lazyOf G n) = false →
        mainBranch O G cyclesOf maxRuns fuel name rest st =
          MainBranchOut.bskip
            { st with
              core := { st.core with
                        runQueue := rest, waiting := enqueueWaiting name st.core.waiting } }) ∧
    (∀ (O : Oracles) (G : Graph) (maxRuns : Nat) (cycle : List String) (name : String)
        (rest : List String) (st : SubState) (comp : Comp) (ys : List Yield) (st' : SubState),
        List.lookup name G = some comp → comp.is_lazy_variadic = true →
        subBranch O G maxRuns cycle name rest st = SubBranchOut.sdrain ys st' → ys ≠ [] →
        rest.all (fun n => lazyOf G n) = true) ∧
    (∀ (O : Oracles) (G : Graph) (cyclesOf : String → List (List String))
        (maxRuns fuel : Nat) (name : String) (rest : List String) (st : MainState)
        (comp : Comp) (ys : List Yield) (st' : MainState),
        List.lookup name G = some comp → comp.is_lazy_variadic = true →
        mainBranch O G cyclesOf maxRuns fuel name rest st = MainBranchOut.bdrain ys st' →
        ys ≠ [] →
        rest.all (fun n => lazyOf G n) = true) := by
  refine ⟨?_, ?_, ?_, ?_⟩
  · intro O G maxRuns cycle name rest st comp hg hlazy hall
    exact subBranch_defer O G maxRuns cycle name rest st comp hg hlazy hall
  · intro O G cyclesOf maxRuns fuel name rest st comp hg hlazy hall
    exact mainBranch_defer O G cyclesOf maxRuns fuel name rest st comp hg hlazy hall
  · intro O G maxRuns cycle name rest st comp ys st' hg hlazy hsd hys
    rcases Bool.eq_false_or_eq_true (rest.all (fun n => lazyOf G n)) with hall | hall
    · exact hall
    · rw [subBranch_defer O G maxRuns cycle name rest st comp hg hlazy hall] at hsd
      cases hsd
  · intro O G cyclesOf maxRuns fuel name rest st comp ys st' hg hlazy hsd hys
    rcases Bool.eq_false_or_eq_true (rest.all (fun n => lazyOf G n)) with hall | hall
    · exact hall
    · rw [mainBranch_defer O G cyclesOf maxRuns fuel name rest st comp hg hlazy hall] at hsd
      cases hsd

/-- Witness for `c4_lazy_variadic_deferral`: the lazy-variadic `l` is deferred while
the non-lazy `a` is still in the run queue. -/
theorem c4_lazy_variadic_deferral_witness :
    (List.lookup "l" G3 = some compLazy ∧ compLazy.is_lazy_variadic = true ∧
     (["a"] : List String).all (fun n => lazyOf G3 n) = false) ∧
    subBranch O2 G3 100 [] "l" ["a"] (subInit ["a"] "a" [] []) =
      SubBranchOut.sskip
        { subInit ["a"] "a" [] [] with
          core := { (subInit ["a"] "a" [] []).core with
                    runQueue := ["a"],
                    waiting := enqueueWaiting "l" (subInit ["a"] "a" [] []).core.waiting } } :=
  ⟨⟨by rfl, by rfl, by rfl⟩,
   c4_lazy_variadic_deferral.1 O2 G3 100 [] "l" ["a"] (subInit ["a"] "a" [] []) compLazy
     (by rfl) (by rfl) (by rfl)⟩

/-- Witness for `c5_terminal_yield`: on an empty run queue the loop immediately yields
`final_outputs` as the only (hence last) item. -/
theorem c5_terminal_yield_witness :
    mainLoop O2 G2 (fun _ => []) 100 1 mainState0
        = MainResult.done false [([] : Yield)] mainState0 ∧
    ∃ ys0, [([] : Yield)] = ys0 ++ [mainState0.finalOutputs] :=
  ⟨by rfl, c5_terminal_yield O2 G2 (fun _ => []) 100 1 mainState0 false [[]] mainState0 (by rfl)⟩

/-- C9: stuck detection.  (1) The `StuckInLoop` warning fires (drain check returns
`none`, breaking the loop to yield the accumulated `final_outputs`) exactly at a drain
of the run queue with a non-empty waiting queue where both witness snapshots are
defined, equal as sets, and the external stuck predicate confirms the deadlock.
(2) Whenever an iteration of the main loop yields (a component or a cycle ran
successfully), both witnesses are reset to undefined.  (3) The warning cannot fire
while the older witness is undefined, and (4) a drain taken from the fully reset state
leaves the older witness undefined — so at least two drains must occur after the last
successful run before the warning can fire. -/
theorem c9_stuck_detection :
    (∀ (O : Oracles) (core : SchedCore),
        drainCheck O core = none ↔
          core.runQueue = [] ∧ core.waiting ≠ [] ∧
          ∃ a b, core.beforeLast = some a ∧ core.lastWaiting = some b ∧ setEq a b = true ∧
            O.isStuck core.waiting = true) ∧
    (∀ (O : Oracles) (G : Graph) (cyclesOf : String → List (List String))
        (maxRuns fuel : Nat) (name : String) (rest : List String) (st : MainState)
        (ys : List Yield) (st' : MainState),
        mainBranch O G cyclesOf maxRuns fuel name rest st = MainBranchOut.bdrain ys st' →
        ys ≠ [] →
        st'.core.beforeLast = none ∧ st'.core.lastWaiting = none) ∧
    (∀ (O : Oracles) (core : SchedCore), core.beforeLast = none → drainCheck O core ≠ none) ∧
    (∀ (O : Oracles) (core core' : SchedCore), core.beforeLast = none →
        core.lastWaiting = none → drainCheck O core = some core' →
        core'.beforeLast = none) := by
  refine ⟨?_, ?_, ?_, ?_⟩
  · intro O core
    exact drainCheck_none_iff O core
  · intro O G cyclesOf maxRuns fuel name rest st ys st' h hne
    rcases mainBranch_bdrain_cases _ _ _ _ _ _ _ _ _ _ h with
      ⟨hys, _⟩ | ⟨comp, res, _, _, _, _, _, hys, hst⟩ | ⟨comp, cyc, sst, _, _, _, _, _, hst⟩
    · exact absurd hys hne
    · rw [hst]
      exact ⟨(mainRunPost_core O name rest st comp res).1,
             (mainRunPost_core O name rest st comp res).2.1⟩
    · rw [hst]
      exact ⟨(mainCyclePost_core O st sst).1, (mainCyclePost_core O st sst).2.1⟩
  · intro O core hbl h
    rw [drainCheck_none_iff] at h
    obtain ⟨-, -, a, b, hba, -⟩ := h
    rw [hbl] at hba
    cases hba
  · intro O core core' hbl hlw h
    exact drainCheck_afterReset O core core' hbl hlw h

/-- Witness for `c9_stuck_detection` (third conjunct): with an undefined older witness
the drain check cannot fire. -/
theorem c9_stuck_detection_witness :
    mainState0.core.beforeLast = none ∧ drainCheck O2 mainState0.core ≠ none :=
  ⟨rfl, c9_stuck_detection.2.2.1 O2 mainState0.core rfl⟩

/-- C6 (amended): the cycle sub-scheduler's loop stops scheduling as soon as
`cycle_received_inputs` is true — (1) from such a state the loop exits immediately,
running no further component — and its normal (non-break) exit happens only with the
flag true (3); the flag is set by an iteration exactly when a component of the cycle
ran successfully and none of the output sockets present in its result has a receiver
inside the cycle (2); the drain check itself never runs a component (4).  (The loop
can also exit through the `StuckInLoop` break with the flag still false, which is what
the counterexample shows.) -/
theorem c6_termination_amended :
    (∀ (O : Oracles) (G : Graph) (maxRuns : Nat) (cycle : List String) (fuel : Nat)
        (st : SubState), st.cycleReceivedInputs = true →
        subLoop O G maxRuns cycle (fuel + 1) st = SubResult.done [] st) ∧
    (∀ (O : Oracles) (G : Graph) (maxRuns : Nat) (cycle : List String) (name : String)
        (rest : List String) (st : SubState) (ys : List Yield) (st' : SubState),
        st.cycleReceivedInputs = false →
        subBranch O G maxRuns cycle name rest st = SubBranchOut.sdrain ys st' →
        (st'.cycleReceivedInputs = true ↔
          ∃ comp res, List.lookup name G = some comp ∧
            (runComponent comp (inputsOf st.core.store name)
              (visitsOf st.core.visits name)).result = some res ∧
            ys = [[(name, res)]] ∧ outputReachesCycle cycle comp res = false)) ∧
    (∀ (O : Oracles) (G : Graph) (maxRuns : Nat) (cycle : List String) (fuel : Nat)
        (st : SubState) (ys : List Yield) (st' : SubState),
        subLoop O G maxRuns cycle fuel st = SubResult.done ys st' →
        st'.cycleReceivedInputs = true) ∧
    (∀ (O : Oracles) (core core' : SchedCore), drainCheck O core = some core' →
        core'.visits = core.visits) := by
  refine ⟨?_, ?_, ?_, ?_⟩
  · intro O G maxRuns cycle fuel st h
    simp only [subLoop]
    rw [if_pos h]
  · intro O G maxRuns cycle name rest st ys st' hcri hsd
    rcases subBranch_sdrain_cases _ _ _ _ _ _ _ _ _ hsd with
      ⟨hys, hst⟩ | ⟨comp, res, hg, hdef, hen, hvle, hres, hys, hst⟩
    · have hfalse : st'.cycleReceivedInputs = false := by
        rw [hst]; exact hcri
      constructor
      · intro hT
        rw [hfalse] at hT
        cases hT
      · rintro ⟨comp, res, -, -, hys2, -⟩
        rw [hys] at hys2
        cases hys2
    · have hcri' : st'.cycleReceivedInputs = !(outputReachesCycle cycle comp res) := by
        rw [hst, (subRunPost_core O cycle name rest st comp res).2.2.2, hcri, Bool.false_or]
      constructor
      · intro hT
        refine ⟨comp, res, hg, hres, hys, ?_⟩
        rw [hcri'] at hT
        simpa using hT
      · rintro ⟨comp2, res2, hg2, hres2, hys2, hreach2⟩
        obtain rfl : comp = comp2 := Option.some.inj (hg.symm.trans hg2)
        have hres' : res = res2 := by
          have := hys.symm.trans hys2
          simpa using this
        subst hres'
        rw [hcri', hreach2]
        rfl
  · intro O G maxRuns cycle fuel st ys st' h
    exact subLoop_done_cri O G maxRuns cycle fuel st ys st' h
  · intro O core core' h
    exact drainCheck_visits O core core' h

/-- Witness for `c6_termination_amended` (first conjunct): from a state with
`cycle_received_inputs = true` the sub-scheduler loop exits at once. -/
theorem c6_termination_amended_witness :
    c6StateDone.cycleReceivedInputs = true ∧
    subLoop O2 G2 100 ["a"] 1 c6StateDone = SubResult.done [] c6StateDone :=
  ⟨rfl, c6_termination_amended.1 O2 G2 100 ["a"] 0 c6StateDone rfl⟩

/-- C1 (amended): the max-runs guard compares with strict `>`: both in the cycle
sub-scheduler (1) and in the main loop (2), the run of a ready component fails with
`MaxRunsExceeded` exactly when `visits[name] > max_runs_per_component` — so a
component may still run when `visits = max_runs_per_component`.  Consequently the
invariant at every observation point is `visits[c] ≤ max_runs_per_component + 1`,
preserved by the sub-scheduler (3) and by the main loop (4); and in the self-looping
breakable cycle with `max_runs_per_component = 3` the fourth run completes and the
fifth attempt raises `MaxRunsExceeded` (5). -/
theorem c1_max_runs_amended :
    (∀ (O : Oracles) (G : Graph) (maxRuns : Nat) (cycle : List String) (name : String)
        (rest : List String) (st : SubState) (comp : Comp),
        List.lookup name G = some comp →
        (comp.is_lazy_variadic && !(rest.all (fun n => lazyOf G n))) = false →
        O.hasEnough name st.core.store = true →
        (subBranch O G maxRuns cycle name rest st
            = SubBranchOut.serr [] (PErr.maxRunsExceeded name)
          ↔ visitsOf st.core.visits name > maxRuns)) ∧
    (∀ (O : Oracles) (G : Graph) (cyclesOf : String → List (List String))
        (maxRuns fuel : Nat) (name : String) (rest : List String) (st : MainState)
        (comp : Comp),
        List.lookup name G = some comp →
        (comp.is_lazy_variadic && !(rest.all (fun n => lazyOf G n))) = false →
        cyclesOf name = [] →
        O.hasEnough name st.core.store = true →
        (mainBranch O G cyclesOf maxRuns fuel name rest st
            = MainBranchOut.berr [] (PErr.maxRunsExceeded name)
          ↔ visitsOf st.core.visits name > maxRuns)) ∧
    (∀ (O : Oracles) (G : Graph) (maxRuns : Nat) (cycle : List String) (fuel : Nat)
        (st st' : SubState),
        (∀ n, visitsOf st.core.visits n ≤ maxRuns + 1) →
        (subLoop O G maxRuns cycle fuel st).finalState = some st' →
        ∀ n, visitsOf st'.core.visits n ≤ maxRuns + 1) ∧
    (∀ (O : Oracles) (G : Graph) (cyclesOf : String → List (List String)) (maxRuns : Nat)
        (fuel : Nat) (st st' : MainState),
        (∀ n, visitsOf st.core.visits n ≤ maxRuns + 1) →
        (mainLoop O G cyclesOf maxRuns fuel st).finalState = some st' →
        ∀ n, visitsOf st'.core.visits n ≤ maxRuns + 1) ∧
    subLoop O1 G1 3 ["a"] 8 (subInit ["a"] "a" [] [])
        = SubResult.failed [yieldA1, yieldA1, yieldA1, yieldA1] (PErr.maxRunsExceeded "a") := by
  refine ⟨?_, ?_, ?_, ?_, by rfl⟩
  · intro O G maxRuns cycle name rest st comp hg hdef hen
    exact subBranch_maxruns_iff O G maxRuns cycle name rest st comp hg hdef hen
  · intro O G cyclesOf maxRuns fuel name rest st comp hg hdef hcyc hen
    exact mainBranch_maxruns_iff O G cyclesOf maxRuns fuel name rest st comp hg hdef hcyc hen
  · intro O G maxRuns cycle fuel st st' hb h
    exact subLoop_visits_bound O G maxRuns cycle fuel st st' hb h
  · intro O G cyclesOf maxRuns fuel st st' hb h
    exact mainLoop_visits_bound O G cyclesOf maxRuns fuel st st' hb h

/-- Witness for `c1_max_runs_amended` (first conjunct) at the self-loop state with
`visits["a"] = 3 = max_runs_per_component`: the guard does not fire there. -/
theorem c1_max_runs_amended_witness :
    (List.lookup "a" G1 = some compA1 ∧
     (compA1.is_lazy_variadic && !(([] : List String).all (fun n => lazyOf G1 n))) = false ∧
     O1.hasEnough "a" c1State3.core.store = true) ∧
    (subBranch O1 G1 3 ["a"] "a" [] c1State3
        = SubBranchOut.serr [] (PErr.maxRunsExceeded "a")
      ↔ visitsOf c1State3.core.visits "a" > 3) :=
  ⟨⟨by rfl, by rfl, by rfl⟩,
   c1_max_runs_amended.1 O1 G1 3 ["a"] "a" [] c1State3 compA1 (by rfl) (by rfl) (by rfl)⟩
